import Mathlib

/-!
Verification of the JCL Analysis/Extraction engine (`larkJCL_DB.py`).

The development shallowly embeds the string-processing functions of the
preprocessor (`JCLPreprocessor`), the step assembler
(`JCLParserManager.process_results`) and the row construction of the
persistence layer (`DatabaseManager.insert_project_data`).  Python strings
are modelled as `List Char`, Python dicts as insertion-ordered association
lists, and Python's in-place mutation as explicit state passing.  Each
embedded definition carries a comment naming the Python function it
translates.
-/

/-- Python string type, modelled as a list of characters. -/
abbrev Str := List Char

/-- The single-quote character (ASCII 39). -/
def quoteChar : Char := Char.ofNat 39

/-- The double-quote character (ASCII 34). -/
def dquoteChar : Char := Char.ofNat 34

/-- Whitespace characters recognised by Python's `str.strip` / `\s`:
space, tab, newline, vertical tab, form feed, carriage return. -/
def isPySpace (c : Char) : Bool :=
  c = ' ' || c = '\t' || c = '\n' || c = Char.ofNat 11 || c = Char.ofNat 12 || c = '\r'

/-- Python `str.lstrip()` (whitespace on the left). -/
def pyLstrip (s : Str) : Str := s.dropWhile isPySpace

/-- Python `str.rstrip()` (whitespace on the right). -/
def pyRstrip (s : Str) : Str := (s.reverse.dropWhile isPySpace).reverse

/-- Python `str.strip()` (whitespace on both ends). -/
def pyStrip (s : Str) : Str := pyRstrip (pyLstrip s)

/-- Python `str.strip(c)` for one character: removes every leading and
trailing occurrence of `c`. -/
def pyStripChar (c : Char) (s : Str) : Str :=
  ((s.dropWhile (· = c)).reverse.dropWhile (· = c)).reverse

/-- Python `str.upper()` restricted to ASCII, as the source applies it to
JCL identifiers. -/
def pyUpper (s : Str) : Str := s.map Char.toUpper

/-- Whether `pat` occurs as a contiguous substring of `s` (Python's
`pat in s`). -/
def occursIn (pat : Str) : Str → Bool
  | [] => pat.isEmpty
  | c :: cs => pat.isPrefixOf (c :: cs) || occursIn pat cs

/-- Worker for `replaceAll`.  The `Nat` argument counts characters still to
be skipped because they belong to an already-replaced occurrence. -/
def replaceGo (pat rep : Str) : Nat → Str → Str
  | _ + 1, [] => []
  | k + 1, _ :: cs => replaceGo pat rep k cs
  | 0, [] => []
  | 0, c :: cs =>
    if pat ≠ [] ∧ pat.isPrefixOf (c :: cs) then
      rep ++ replaceGo pat rep (pat.length - 1) cs
    else
      c :: replaceGo pat rep 0 cs

/-- Python `s.replace(pat, rep)`: replaces every non-overlapping occurrence
of `pat`, scanning left to right.  (The Python corner case of an empty
pattern never arises in the source: every pattern passed starts with `&`.) -/
def replaceAll (pat rep s : Str) : Str :=
  replaceGo pat rep 0 s

/-- Assignment `d[k] = v` on a Python dict modelled as an insertion-ordered
association list: an existing key keeps its position, a new key is appended. -/
def dictSet (m : List (Str × Str)) (k v : Str) : List (Str × Str) :=
  if m.any (fun kv => kv.1 = k) then
    m.map (fun kv => if kv.1 = k then (k, v) else kv)
  else
    m ++ [(k, v)]

/-- Python `d.update(e)`: assign every binding of `e` in order. -/
def dictUpdate (m e : List (Str × Str)) : List (Str × Str) :=
  e.foldl (fun acc kv => dictSet acc kv.1 kv.2) m

/-- Python `d.get(k)` on an association list. -/
def dictGet (m : List (Str × Str)) (k : Str) : Option Str :=
  (m.find? (fun kv => kv.1 = k)).map (fun kv => kv.2)

/-- Stable insertion into a list sorted by descending key length: the new
element goes before the first strictly shorter key, after all keys of equal
or greater length.  Together with `sortSymbols` this models Python's stable
`sorted(keys, key=len, reverse=True)` in `apply_symbolics`. -/
def insertByLen (x : Str × Str) : List (Str × Str) → List (Str × Str)
  | [] => [x]
  | y :: ys =>
    if x.1.length < y.1.length then y :: insertByLen x ys
    else x :: y :: ys

/-- Stable sort of the symbol table by descending name length
(`sorted(self.symbol_table.keys(), key=len, reverse=True)`). -/
def sortSymbols : List (Str × Str) → List (Str × Str)
  | [] => []
  | x :: xs => insertByLen x (sortSymbols xs)

/-- One iteration of the loop body of `JCLPreprocessor.apply_symbolics`:
`stmt.replace(f"&{sym}..", f"{val}.").replace(f"&{sym}.", val).replace(f"&{sym}", val)`. -/
def symStep (s : Str) (kv : Str × Str) : Str :=
  let pat : Str := '&' :: kv.1
  let s1 := replaceAll (pat ++ ['.', '.']) (kv.2 ++ ['.']) s
  let s2 := replaceAll (pat ++ ['.']) kv.2 s1
  replaceAll pat kv.2 s2

/-- `JCLPreprocessor.apply_symbolics` (larkJCL_DB.py lines 193-197): apply
every symbol, longest names first, three replacement forms per symbol. -/
def apply_symbolics (tbl : List (Str × Str)) (s : Str) : Str :=
  (sortSymbols tbl).foldl symStep s

section SymbolLemmas

/-- Descending-length ordering relation on symbol-table entries. -/
def lenGE (a b : Str × Str) : Prop := b.1.length ≤ a.1.length

theorem perm_insertByLen (x : Str × Str) (l : List (Str × Str)) :
    (insertByLen x l).Perm (x :: l) := by
  induction l with
  | nil => simp [insertByLen]
  | cons y ys ih =>
    by_cases h : x.1.length < y.1.length
    · simp only [insertByLen, if_pos h]
      exact (ih.cons y).trans (List.Perm.swap x y ys)
    · simp only [insertByLen, if_neg h]
      exact List.Perm.refl _

theorem sortSymbols_perm (l : List (Str × Str)) : (sortSymbols l).Perm l := by
  induction l with
  | nil => simp [sortSymbols]
  | cons x xs ih =>
    exact (perm_insertByLen x (sortSymbols xs)).trans (ih.cons x)

theorem pairwise_insertByLen (x : Str × Str) (l : List (Str × Str))
    (h : l.Pairwise lenGE) : (insertByLen x l).Pairwise lenGE := by
  induction l with
  | nil => simp [insertByLen, lenGE]
  | cons y ys ih =>
    rcases List.pairwise_cons.mp h with ⟨hy, hys⟩
    by_cases hlt : x.1.length < y.1.length
    · simp only [insertByLen, if_pos hlt]
      refine List.pairwise_cons.mpr ⟨?_, ih hys⟩
      intro z hz
      rcases List.mem_cons.mp ((perm_insertByLen x ys).mem_iff.mp hz) with hzx | hzys
      · subst hzx; exact Nat.le_of_lt hlt
      · exact hy z hzys
    · simp only [insertByLen, if_neg hlt]
      refine List.pairwise_cons.mpr ⟨?_, h⟩
      intro z hz
      rcases List.mem_cons.mp hz with hzy | hzys
      · subst hzy; exact Nat.le_of_not_lt hlt
      · exact Nat.le_trans (hy z hzys) (Nat.le_of_not_lt hlt)

theorem sortSymbols_sorted (l : List (Str × Str)) :
    (sortSymbols l).Pairwise lenGE := by
  induction l with
  | nil => simp [sortSymbols]
  | cons x xs ih => exact pairwise_insertByLen x (sortSymbols xs) ih

end SymbolLemmas

theorem isPrefixOf_of_append (p q s : Str)
    (h : (p ++ q).isPrefixOf s = true) : p.isPrefixOf s = true := by
  induction p generalizing s with
  | nil => simp [List.isPrefixOf]
  | cons a p ih =>
    cases s with
    | nil => simp [List.isPrefixOf] at h
    | cons b s =>
      simp only [List.cons_append, List.isPrefixOf, Bool.and_eq_true] at h ⊢
      exact ⟨h.1, ih s h.2⟩

theorem occursIn_append_of_not (p q s : Str)
    (h : occursIn p s = false) : occursIn (p ++ q) s = false := by
  induction s with
  | nil =>
    cases p with
    | nil => simp [occursIn] at h
    | cons a p2 => simp [occursIn]
  | cons c cs ih =>
    simp only [occursIn, Bool.or_eq_false_iff] at h ⊢
    refine ⟨?_, ih h.2⟩
    cases hpre : (p ++ q).isPrefixOf (c :: cs) with
    | false => rfl
    | true => exact absurd (isPrefixOf_of_append p q (c :: cs) hpre) (by simp [h.1])

theorem replaceAll_of_not_occurs (pat rep s : Str)
    (h : occursIn pat s = false) : replaceAll pat rep s = s := by
  unfold replaceAll
  induction s with
  | nil => rfl
  | cons c cs ih =>
    simp only [occursIn, Bool.or_eq_false_iff] at h
    simp only [replaceGo, h.1, Bool.false_eq_true, and_false, if_false, ite_false]
    exact congrArg (c :: ·) (ih h.2)

theorem symStep_of_not_occurs (s : Str) (kv : Str × Str)
    (h : occursIn ('&' :: kv.1) s = false) : symStep s kv = s := by
  unfold symStep
  have h2 : occursIn ('&' :: kv.1 ++ ['.']) s = false :=
    occursIn_append_of_not _ _ _ h
  have h3 : occursIn ('&' :: kv.1 ++ ['.', '.']) s = false :=
    occursIn_append_of_not _ _ _ h
  simp only [replaceAll_of_not_occurs _ _ _ h3, replaceAll_of_not_occurs _ _ _ h2,
    replaceAll_of_not_occurs _ _ _ h]

theorem foldl_symStep_of_not_occurs (l : List (Str × Str)) (s : Str)
    (h : ∀ kv ∈ l, occursIn ('&' :: kv.1) s = false) :
    l.foldl symStep s = s := by
  induction l with
  | nil => rfl
  | cons kv l ih =>
    simp only [List.foldl_cons, symStep_of_not_occurs s kv (h kv (List.mem_cons_self kv l))]
    exact ih (fun kv2 hm => h kv2 (List.mem_cons_of_mem kv hm))

/-- C1: `apply_symbolics` substitutes symbol names in descending name-length
order (the iteration order is a permutation of the table sorted by
descending name length, stably), replacing for each name `&NAME..` by
`VALUE.`, then `&NAME.` by `VALUE`, then `&NAME` by `VALUE`; with table
`{A=1, ABC=9}` the inputs `&ABC &A`, `&A..BC` and `&ABC.X` yield `9 1`,
`1.BC` and `9X` respectively. -/
theorem apply_symbolics_precedence :
    (∀ tbl : List (Str × Str), (sortSymbols tbl).Pairwise lenGE ∧ (sortSymbols tbl).Perm tbl) ∧
    (∀ tbl s, apply_symbolics tbl s = (sortSymbols tbl).foldl symStep s) ∧
    apply_symbolics [(("A").toList, ("1").toList), (("ABC").toList, ("9").toList)]
      (("&ABC &A").toList) = ("9 1").toList ∧
    apply_symbolics [(("A").toList, ("1").toList), (("ABC").toList, ("9").toList)]
      (("&A..BC").toList) = ("1.BC").toList ∧
    apply_symbolics [(("A").toList, ("1").toList), (("ABC").toList, ("9").toList)]
      (("&ABC.X").toList) = ("9X").toList := by
  refine ⟨fun tbl => ⟨sortSymbols_sorted tbl, sortSymbols_perm tbl⟩, fun tbl s => rfl, ?_, ?_, ?_⟩
  · decide
  · decide
  · decide

/-- C9: substitution is idempotent on a fully substituted statement.  If the
result of one application of `apply_symbolics` contains no remaining
reference `&NAME` for a table name `NAME`, a second application returns it
unchanged. -/
theorem apply_symbolics_idempotent (tbl : List (Str × Str)) (s : Str)
    (h : ∀ kv ∈ tbl, occursIn ('&' :: kv.1) (apply_symbolics tbl s) = false) :
    apply_symbolics tbl (apply_symbolics tbl s) = apply_symbolics tbl s := by
  unfold apply_symbolics
  exact foldl_symStep_of_not_occurs _ _
    (fun kv hm => h kv ((sortSymbols_perm tbl).subset hm))

/-- Witness for C9 at a concrete table and statement. -/
theorem apply_symbolics_idempotent_witness :
    apply_symbolics [(("A").toList, ("1").toList)]
        (apply_symbolics [(("A").toList, ("1").toList)] (("DSN=&A..X").toList)) =
      apply_symbolics [(("A").toList, ("1").toList)] (("DSN=&A..X").toList) :=
  apply_symbolics_idempotent [(("A").toList, ("1").toList)] (("DSN=&A..X").toList) (by decide)

/-- Python `line.split(None, 2)` restricted to the shape used by
`strip_jcl_comment`: `some (w1, w2, rest)` when the split yields at least
three parts (the remainder `rest` keeps its internal and trailing
whitespace), `none` when it yields fewer. -/
def wsplit2 (s : Str) : Option (Str × Str × Str) :=
  let s1 := pyLstrip s
  let w1 := s1.takeWhile (fun c => !isPySpace c)
  let r1 := pyLstrip (s1.dropWhile (fun c => !isPySpace c))
  let w2 := r1.takeWhile (fun c => !isPySpace c)
  let r2 := pyLstrip (r1.dropWhile (fun c => !isPySpace c))
  if w1 = [] ∨ w2 = [] ∨ r2 = [] then none else some (w1, w2, r2)

/-- The comment scan of `JCLPreprocessor.strip_jcl_comment` (lines 63-70):
walk the operand field with an in-quote flag toggled by every single
quote; stop before the first space seen while the flag is off. -/
def scanOperands : Bool → Str → Str
  | _, [] => []
  | inq, c :: cs =>
    if c = quoteChar then c :: scanOperands (!inq) cs
    else if c = ' ' ∧ inq = false then []
    else c :: scanOperands inq cs

/-- Claim-side reformulation of the comment scan: a position is outside
single quotes when the number of quote characters before it is even; the
operand field is cut at the first space at such a position. -/
def specTrunc : Nat → Str → Str
  | _, [] => []
  | nq, c :: cs =>
    if c = quoteChar then c :: specTrunc (nq + 1) cs
    else if c = ' ' ∧ nq % 2 = 0 then []
    else c :: specTrunc nq cs

/-- `JCLPreprocessor.strip_jcl_comment` (larkJCL_DB.py lines 53-71). -/
def strip_jcl_comment (line : Str) (is_continuation : Bool) : Str :=
  if is_continuation then
    pyStrip (scanOperands false (pyLstrip (line.dropWhile (· = '/'))))
  else
    match wsplit2 line with
    | none => pyRstrip line
    | some (w1, w2, rest) =>
      pyStrip ((w1 ++ [' '] ++ w2) ++ [' '] ++ scanOperands false rest)

theorem scanOperands_eq_specTrunc (s : Str) (nq : Nat) :
    scanOperands (decide (nq % 2 = 1)) s = specTrunc nq s := by
  induction s generalizing nq with
  | nil => rfl
  | cons c cs ih =>
    by_cases hq : c = quoteChar
    · simp only [scanOperands, specTrunc, if_pos hq]
      have hpar : (!decide (nq % 2 = 1)) = decide ((nq + 1) % 2 = 1) := by
        rcases Nat.mod_two_eq_zero_or_one nq with h | h
        · simp [h, Nat.add_mod]
        · simp [h, Nat.add_mod]
      rw [hpar, ih (nq + 1)]
    · by_cases hsp : c = ' ' ∧ nq % 2 = 0
      · have hb : decide (nq % 2 = 1) = false := by simp [hsp.2]
        have hq2 : ¬(' ' = quoteChar) := by decide
        rw [hsp.1]
        simp only [scanOperands, specTrunc]
        rw [if_neg hq2, if_neg hq2, if_pos ⟨trivial, hb⟩, if_pos ⟨trivial, hsp.2⟩]
      · simp only [scanOperands, specTrunc, if_neg hq]
        have hcond : ¬(c = ' ' ∧ decide (nq % 2 = 1) = false) := by
          intro hc
          rcases Nat.mod_two_eq_zero_or_one nq with h | h
          · exact hsp ⟨hc.1, h⟩
          · rw [h] at hc
            simp at hc
        rw [if_neg hcond, if_neg hsp, ih nq]

/-- The claimed example card, `//L OP a='b c' comment`. -/
def c5Input : Str :=
  ("//L OP a=").toList ++ [quoteChar] ++ ("b c").toList ++ [quoteChar] ++ (" comment").toList

/-- The claimed reassembly of the example card, `//L OP a='b c'`. -/
def c5Expected : Str :=
  ("//L OP a=").toList ++ [quoteChar] ++ ("b c").toList ++ [quoteChar]

/-- C5: on a non-continuation card, `strip_jcl_comment` truncates the
operand field at the first space outside single quotes, with every quote
character toggling the in-quote state (equivalently: at the first space
preceded by an even number of quotes); the card `//L OP a='b c' comment`
reassembles to `//L OP a='b c'`. -/
theorem strip_jcl_comment_respects_quotes :
    (∀ s : Str, scanOperands false s = specTrunc 0 s) ∧
    strip_jcl_comment c5Input false = c5Expected := by
  constructor
  · intro s
    have h := scanOperands_eq_specTrunc s 0
    simpa using h
  · decide

/-- Characters matched by the regex class `[A-Z0-9$#@]` under
`re.IGNORECASE` (lowercase letters match as well). -/
def isNameChar (c : Char) : Bool :=
  c.isUpper || c.isLower || c.isDigit || c = '$' || c = '#' || c = '@'

/-- Characters matched by the regex class `[^,\s]`. -/
def isValChar (c : Char) : Bool :=
  !isPySpace c && c != ','

/-- Attempt to match the regex `SET\s+([A-Z0-9$#@]{1,8})=([^,\s]+)` (with
`re.IGNORECASE`) at the head of `s`, returning the two groups.  Greedy
matching of the name run followed by a literal `=` admits no successful
backtracking, because every shorter candidate would have to match `=`
against a name character, so the match succeeds exactly when the full run
of name characters is 1-8 long and is followed by `=`. -/
def setMatchAt (s : Str) : Option (Str × Str) :=
  match s with
  | c1 :: c2 :: c3 :: rest =>
    if c1.toUpper = 'S' ∧ c2.toUpper = 'E' ∧ c3.toUpper = 'T' then
      if rest.takeWhile isPySpace = [] then none
      else
        let r2 := rest.dropWhile isPySpace
        let name := r2.takeWhile isNameChar
        if name = [] ∨ 8 < name.length then none
        else
          match r2.drop name.length with
          | '=' :: r3 =>
            if r3.takeWhile isValChar = [] then none
            else some (name, r3.takeWhile isValChar)
          | _ => none
    else none
  | _ => none

/-- Python `re.search`: try the pattern at every start position, leftmost
match wins. -/
def findSetMatch : Str → Option (Str × Str)
  | [] => none
  | c :: cs =>
    match setMatchAt (c :: cs) with
    | some r => some r
    | none => findSetMatch cs

/-- `JCLPreprocessor.update_symbols` (larkJCL_DB.py lines 199-201):
`re.search` the SET pattern, and on a match assign
`table[name.upper()] = value.strip(quote)`. -/
def update_symbols (tbl : List (Str × Str)) (stmt : Str) : List (Str × Str) :=
  match findSetMatch stmt with
  | some nv => dictSet tbl (pyUpper nv.1) (pyStripChar quoteChar nv.2)
  | none => tbl

theorem takeWhile_append_all (p : Char → Bool) (xs ys : Str)
    (h1 : ∀ c ∈ xs, p c = true)
    (h2 : ∀ y, ys.head? = some y → p y = false) :
    (xs ++ ys).takeWhile p = xs := by
  induction xs with
  | nil =>
    cases ys with
    | nil => rfl
    | cons y t => simp [List.takeWhile_cons, h2 y rfl]
  | cons x xt ih =>
    simp only [List.cons_append, List.takeWhile_cons, h1 x (List.mem_cons_self x xt),
      if_true]
    exact congrArg (x :: ·) (ih (fun c hc => h1 c (List.mem_cons_of_mem x hc)))

theorem dropWhile_append_all (p : Char → Bool) (xs ys : Str)
    (h1 : ∀ c ∈ xs, p c = true)
    (h2 : ∀ y, ys.head? = some y → p y = false) :
    (xs ++ ys).dropWhile p = ys := by
  induction xs with
  | nil =>
    cases ys with
    | nil => rfl
    | cons y t => simp [List.dropWhile_cons, h2 y rfl]
  | cons x xt ih =>
    simp only [List.cons_append, List.dropWhile_cons, h1 x (List.mem_cons_self x xt),
      if_true]
    exact ih (fun c hc => h1 c (List.mem_cons_of_mem x hc))

theorem isNameChar_not_pyspace (c : Char) (h : isNameChar c = true) :
    isPySpace c = false := by
  cases hsp : isPySpace c with
  | false => rfl
  | true =>
    exfalso
    unfold isPySpace at hsp
    simp only [Bool.or_eq_true, decide_eq_true_eq] at hsp
    rcases hsp with ((((rfl | rfl) | rfl) | rfl) | rfl) | rfl <;>
      exact absurd h (by decide)

theorem setMatchAt_SET (n0 : Char) (nt value rest : Str)
    (hn8 : (n0 :: nt).length ≤ 8)
    (hnc : ∀ c ∈ n0 :: nt, isNameChar c = true)
    (hv1 : value ≠ [])
    (hvc : ∀ c ∈ value, isValChar c = true)
    (hr : ∀ y, rest.head? = some y → isValChar y = false) :
    setMatchAt ('S' :: 'E' :: 'T' :: ' ' :: ((n0 :: nt) ++ ('=' :: (value ++ rest)))) =
      some (n0 :: nt, value) := by
  have hn0 : isNameChar n0 = true := hnc n0 (List.mem_cons_self n0 nt)
  have hn0s : isPySpace n0 = false := isNameChar_not_pyspace n0 hn0
  have htw : (' ' :: ((n0 :: nt) ++ ('=' :: (value ++ rest)))).takeWhile isPySpace = [' '] := by
    rw [List.takeWhile_cons_of_pos (by decide), List.cons_append,
      List.takeWhile_cons_of_neg (by simp [hn0s])]
  have hdw : (' ' :: ((n0 :: nt) ++ ('=' :: (value ++ rest)))).dropWhile isPySpace =
      (n0 :: nt) ++ ('=' :: (value ++ rest)) := by
    rw [List.dropWhile_cons_of_pos (by decide), List.cons_append,
      List.dropWhile_cons_of_neg (by simp [hn0s])]
  have hname : ((n0 :: nt) ++ ('=' :: (value ++ rest))).takeWhile isNameChar = n0 :: nt :=
    takeWhile_append_all isNameChar (n0 :: nt) ('=' :: (value ++ rest)) hnc
      (fun y hy => by
        simp only [List.head?_cons, Option.some.injEq] at hy
        subst hy
        decide)
  have hval : (value ++ rest).takeWhile isValChar = value :=
    takeWhile_append_all isValChar value rest hvc hr
  have hlen : ¬(n0 :: nt = [] ∨ 8 < (n0 :: nt).length) := by
    simp only [List.length_cons] at hn8 ⊢
    push_neg
    exact ⟨List.cons_ne_nil n0 nt, by omega⟩
  simp only [setMatchAt]
  rw [if_pos (by decide), htw, hdw, hname]
  rw [if_neg (by simp), if_neg hlen, List.drop_left]
  simp only [hval]
  rw [if_neg hv1]

theorem findSetMatch_skip (c : Char) (cs : Str)
    (h : setMatchAt (c :: cs) = none) : findSetMatch (c :: cs) = findSetMatch cs := by
  simp only [findSetMatch, h]

/-- C8 counterexample: on `// SET A=1,B=2` the code stores only `A=1`; the
second listed binding `B=2` is absent from the resulting table, contrary to
the claim that every listed binding is applied. -/
theorem update_symbols_counterexample :
    update_symbols [] (("// SET A=1,B=2").toList) = [(("A").toList, ("1").toList)] ∧
    dictGet (update_symbols [] (("// SET A=1,B=2").toList)) (("B").toList) = none := by
  decide

/-- C8 amended: processing `// SET name=value<rest>` (name of 1-8 name-class
characters, value of non-space non-comma characters, `rest` not extending
the value — e.g. a `,B=2` tail listing further bindings) performs exactly
one table assignment: the first binding, with the name upper-cased and
surrounding single quotes stripped from the value.  Bindings after the
first comma are ignored. -/
theorem update_symbols_first_binding (tbl : List (Str × Str)) (n0 : Char)
    (nt value rest : Str)
    (hn8 : (n0 :: nt).length ≤ 8)
    (hnc : ∀ c ∈ n0 :: nt, isNameChar c = true)
    (hv1 : value ≠ [])
    (hvc : ∀ c ∈ value, isValChar c = true)
    (hr : ∀ y, rest.head? = some y → isValChar y = false) :
    update_symbols tbl
        ('/' :: '/' :: ' ' :: 'S' :: 'E' :: 'T' :: ' ' :: ((n0 :: nt) ++ ('=' :: (value ++ rest)))) =
      dictSet tbl (pyUpper (n0 :: nt)) (pyStripChar quoteChar value) := by
  have hm := setMatchAt_SET n0 nt value rest hn8 hnc hv1 hvc hr
  have hfind : findSetMatch
      ('/' :: '/' :: ' ' :: 'S' :: 'E' :: 'T' :: ' ' :: ((n0 :: nt) ++ ('=' :: (value ++ rest)))) =
      some (n0 :: nt, value) := by
    rw [findSetMatch_skip _ _ (by simp only [setMatchAt]; rw [if_neg (by decide)]),
      findSetMatch_skip _ _ (by simp only [setMatchAt]; rw [if_neg (by decide)]),
      findSetMatch_skip _ _ (by simp only [setMatchAt]; rw [if_neg (by decide)])]
    simp only [findSetMatch, hm]
  unfold update_symbols
  rw [hfind]

/-- Witness for the amended C8 on `// SET abc='1',B=2`: the stored binding
is `ABC` with value `1` and `B` is not bound. -/
theorem update_symbols_first_binding_witness :
    update_symbols [] (('/' :: '/' :: ' ' :: 'S' :: 'E' :: 'T' :: ' ' ::
        (('a' :: ['b', 'c']) ++ ('=' :: (([quoteChar, '1', quoteChar]) ++ (',' :: ("B=2").toList)))))) =
      dictSet [] (pyUpper ('a' :: ['b', 'c'])) (pyStripChar quoteChar ([quoteChar, '1', quoteChar])) :=
  update_symbols_first_binding [] 'a' ['b', 'c'] ([quoteChar, '1', quoteChar])
    (',' :: ("B=2").toList) (by decide) (by decide) (by decide) (by decide)
    (fun y hy => by
      simp only [List.head?_cons, Option.some.injEq] at hy
      subst hy
      decide)

/-- Attempt to match the regex `DLM=([^\s,]{2})` (with `re.IGNORECASE`) at
the head of `s`, returning the two captured characters. -/
def dlmAt (s : Str) : Option (Char × Char) :=
  match s with
  | c1 :: c2 :: c3 :: c4 :: a :: b :: _ =>
    if c1.toUpper = 'D' ∧ c2.toUpper = 'L' ∧ c3.toUpper = 'M' ∧ c4 = '=' ∧
        isValChar a = true ∧ isValChar b = true then
      some (a, b)
    else none
  | _ => none

/-- Python `re.search` for the DLM pattern: leftmost match wins. -/
def findDlm : Str → Option (Char × Char)
  | [] => none
  | c :: cs =>
    match dlmAt (c :: cs) with
    | some r => some r
    | none => findDlm cs

/-- The delimiter computation of `JCLPreprocessor.process_line_list`
(larkJCL_DB.py lines 172-173): default `/*`; on a `DLM=xx` match take the
two characters with single and double quotes removed. -/
def extractDlm (stmt : Str) : Str :=
  match findDlm stmt with
  | some ab => ([ab.1, ab.2]).filter (fun c => !(c = quoteChar || c = dquoteChar))
  | none => ['/', '*']

/-- Default in-stream terminator test (larkJCL_DB.py line 176): the
rstripped card starts with `//` or `/*`. -/
def isDefaultTerm (p : Str) : Bool :=
  (['/', '/']).isPrefixOf p || (['/', '*']).isPrefixOf p

/-- The payload sentinel for one captured card
(`f"*PAYLOAD* {p_line_raw[:72]}"` on the rstripped raw line). -/
def payloadOf (l : Str) : Str :=
  ("*PAYLOAD* ").toList ++ (pyRstrip l).take 72

/-- The in-stream capture loop of `JCLPreprocessor.process_line_list`
(larkJCL_DB.py lines 174-180): returns the emitted payload sentinels and
the lines left for the main loop.  With the default delimiter the
terminator card is left in place; with an explicit delimiter other than
`/*` the terminator card is consumed. -/
def capturePayload (dlm : Str) : List Str → (List Str × List Str)
  | [] => ([], [])
  | l :: rest =>
    let p := pyRstrip l
    if (dlm = ['/', '*'] ∧ isDefaultTerm p = true) ∨
        (dlm ≠ ['/', '*'] ∧ dlm.isPrefixOf p = true) then
      if dlm ≠ ['/', '*'] ∧ dlm.isPrefixOf p = true then ([], rest)
      else ([], l :: rest)
    else
      let pr := capturePayload dlm rest
      (payloadOf l :: pr.1, pr.2)

/-- The example in-stream DD card carrying `DLM=/*`. -/
def c4Stmt : Str := ("//SYSIN DD *,DLM=/*").toList

/-- C4 counterexample: for a DD carrying `DLM=/*` the extracted delimiter
is `/*`, which the code treats as the default: after capturing `HELLO` the
terminator card `/*` is left in the remaining lines rather than consumed,
contrary to the claim that a `DLM=xx` terminator is always consumed. -/
theorem capturePayload_counterexample :
    extractDlm c4Stmt = ['/', '*'] ∧
    capturePayload (extractDlm c4Stmt)
        [("HELLO").toList, ("/*").toList, ("//NEXT").toList] =
      ([("*PAYLOAD* HELLO").toList], [("/*").toList, ("//NEXT").toList]) ∧
    ([("/*").toList, ("//NEXT").toList] : List Str) ≠ [("//NEXT").toList] := by
  decide

/-- C4 amended: with `DLM=xx` for `xx ≠ /*`, capture takes exactly the
cards before the first card starting with `xx` (each emitted as a PAYLOAD
sentinel with the rstripped content truncated to 72 columns) and consumes
the terminator; with no DLM — or with `DLM=/*`, which the code treats as
the default — capture stops at the first card whose first two characters
are `//` or `/*` and leaves the terminator in place; `extractDlm` yields
`$$` for `DLM=$$` and `/*` when no DLM parameter is present. -/
theorem capturePayload_spec (dlm : Str) (lines : List Str) :
    (dlm ≠ ['/', '*'] →
      capturePayload dlm lines =
        ((lines.takeWhile (fun l => !dlm.isPrefixOf (pyRstrip l))).map payloadOf,
         (lines.dropWhile (fun l => !dlm.isPrefixOf (pyRstrip l))).drop 1)) ∧
    (capturePayload (['/', '*']) lines =
      ((lines.takeWhile (fun l => !isDefaultTerm (pyRstrip l))).map payloadOf,
       lines.dropWhile (fun l => !isDefaultTerm (pyRstrip l)))) ∧
    extractDlm (("//SYSIN DD *,DLM=$$").toList) = ("$$").toList ∧
    extractDlm (("//SYSIN DD *").toList) = ['/', '*'] := by
  refine ⟨?_, ?_, by decide, by decide⟩
  · intro hne
    induction lines with
    | nil => rfl
    | cons l rest ih =>
      cases hpre : dlm.isPrefixOf (pyRstrip l) with
      | true =>
        simp only [capturePayload]
        rw [if_pos (Or.inr ⟨hne, hpre⟩), if_pos ⟨hne, hpre⟩]
        simp [List.takeWhile_cons, List.dropWhile_cons, hpre]
      | false =>
        have hcond : ¬((dlm = ['/', '*'] ∧ isDefaultTerm (pyRstrip l) = true) ∨
            (dlm ≠ ['/', '*'] ∧ dlm.isPrefixOf (pyRstrip l) = true)) := by
          rintro (⟨h1, -⟩ | ⟨-, h2⟩)
          · exact hne h1
          · simp [hpre] at h2
        simp only [capturePayload]
        rw [if_neg hcond]
        simp [List.takeWhile_cons, List.dropWhile_cons, hpre, ih]
  · induction lines with
    | nil => rfl
    | cons l rest ih =>
      cases hterm : isDefaultTerm (pyRstrip l) with
      | true =>
        simp only [capturePayload]
        rw [if_pos (Or.inl ⟨trivial, hterm⟩), if_neg (fun hc => hc.1 rfl)]
        simp [List.takeWhile_cons, List.dropWhile_cons, hterm]
      | false =>
        have hcond : ¬((True ∧ isDefaultTerm (pyRstrip l) = true) ∨
            ((['/', '*'] : Str) ≠ ['/', '*'] ∧ (['/', '*']).isPrefixOf (pyRstrip l) = true)) := by
          rintro (⟨-, h1⟩ | ⟨h2, -⟩)
          · simp [hterm] at h1
          · exact h2 rfl
        simp only [capturePayload]
        rw [if_neg hcond]
        simp [List.takeWhile_cons, List.dropWhile_cons, hterm, ih]

/-- Witness for the amended C4 with delimiter `$$`: one payload card is
captured and the terminator card is consumed. -/
theorem capturePayload_spec_witness :
    capturePayload (("$$").toList) [("A").toList, ("$$ END").toList, ("B").toList] =
      ((([("A").toList, ("$$ END").toList, ("B").toList].takeWhile
          (fun l => !(("$$").toList).isPrefixOf (pyRstrip l))).map payloadOf,
        ([("A").toList, ("$$ END").toList, ("B").toList].dropWhile
          (fun l => !(("$$").toList).isPrefixOf (pyRstrip l))).drop 1)) :=
  (capturePayload_spec (("$$").toList)
    [("A").toList, ("$$ END").toList, ("B").toList]).1 (by decide)

/-- Card type of a parsed statement (`tree['type']`). -/
inductive CardType where
  | EXEC
  | DD
deriving DecidableEq

/-- A parsed parameter value as produced by `JCLTransformer`: Python mixes
booleans (`DUMMY`), strings, lists and nested dicts in the `params` map. -/
inductive PVal where
  | pbool (b : Bool)
  | pstr (s : String)
  | plist (l : List String)
  | pdict (m : List (String × String))
deriving DecidableEq

/-- Python truthiness of a parameter value. -/
def pvalTruthy : PVal → Bool
  | .pbool b => b
  | .pstr s => s ≠ ""
  | .plist l => !l.isEmpty
  | .pdict m => !m.isEmpty

/-- Python truthiness of `d.get(k)` (`None` is falsy). -/
def optTruthy : Option PVal → Bool
  | none => false
  | some v => pvalTruthy v

/-- Python `params.get(k)` on the parsed parameter map. -/
def plookup (m : List (String × PVal)) (k : String) : Option PVal :=
  (m.find? (fun kv => kv.1 == k)).map (fun kv => kv.2)

/-- A parsed EXEC or DD card, the transformer output
`{type, label, params}`. -/
structure Card where
  ctype : CardType
  label : Option String
  params : List (String × PVal)
deriving DecidableEq

/-- A DD attached to a step, together with its captured payload lines. -/
structure DDEntry where
  card : Card
  payload : List String
deriving DecidableEq

/-- A step record as built by `JCLParserManager.process_results`: the parsed
EXEC card enriched with the resolved display names and its DD list. -/
structure StepRec where
  card : Card
  final_step_name : Option String
  final_proc_name : Option PVal
  final_proc_step_name : Option String
  dds : List DDEntry
deriving DecidableEq

/-- A procedure-expansion context frame `{'label': …, 'proc': …}`. -/
structure Frame where
  label : String
  proc : String
deriving DecidableEq

/-- One element of the stream consumed by `process_results`: the three
sentinel strings, a statement that parses into a card, or a statement on
which the Lark parse raises (caught, logged and skipped).  Sentinel field
extraction and parsing are abstracted into the constructors. -/
inductive AsmEvent where
  | procStartEv (label proc : String)
  | procEndEv
  | payloadEv (content : String)
  | parsedEv (c : Card)
  | parseErrorEv (raw : String)
deriving DecidableEq

/-- Assembler state: the procedure context stack (`proc_stack`, top at the
end as in the Python list), the accumulated steps, and whether
`current_step` is set (it always aliases the last element of `steps`). -/
structure AsmState where
  stack : List Frame
  steps : List StepRec
  hasCurrent : Bool
deriving DecidableEq

/-- Apply `f` to the last element of a list, as Python mutation of
`steps[-1]` does. -/
def modifyLast (f : α → α) : List α → List α
  | [] => []
  | [x] => [f x]
  | x :: xs => x :: modifyLast f xs

/-- The context application of `process_results` (larkJCL_DB.py lines
387-396): with a non-empty stack the step takes the label and proc of
`proc_stack[-1]` (the innermost frame) and its own label becomes the
proc-step name; otherwise its own label and `params.get('PROC')`. -/
def applyContext (stack : List Frame) (c : Card) : StepRec :=
  match stack.getLast? with
  | some outer =>
    { card := c, final_step_name := some outer.label,
      final_proc_name := some (PVal.pstr outer.proc),
      final_proc_step_name := c.label, dds := [] }
  | none =>
    { card := c, final_step_name := c.label,
      final_proc_name := plookup c.params ("PROC"),
      final_proc_step_name := none, dds := [] }

/-- One iteration of the loop of `JCLParserManager.process_results`
(larkJCL_DB.py lines 366-402). -/
def asmStep (st : AsmState) (ev : AsmEvent) : AsmState :=
  match ev with
  | .procStartEv l p => { st with stack := st.stack ++ [⟨l, p⟩] }
  | .procEndEv => { st with stack := st.stack.dropLast }
  | .payloadEv content =>
    match st.steps.getLast? with
    | some lastStep =>
      if lastStep.dds.isEmpty then st
      else
        { st with steps := modifyLast (fun stp =>
            { stp with dds := modifyLast (fun dd =>
                { dd with payload := dd.payload ++ [content] }) stp.dds }) st.steps }
    | none => st
  | .parseErrorEv _ => st
  | .parsedEv c =>
    match c.ctype with
    | .EXEC => { st with steps := st.steps ++ [applyContext st.stack c], hasCurrent := true }
    | .DD =>
      if st.hasCurrent then
        { st with steps := modifyLast (fun stp =>
            { stp with dds := stp.dds ++ [⟨c, []⟩] }) st.steps }
      else st

/-- `JCLParserManager.process_results`: fold the stream from the initial
state (empty stack, no steps, `current_step = None`) and return the steps. -/
def process_results (evs : List AsmEvent) : List StepRec :=
  (evs.foldl asmStep ⟨[], [], false⟩).steps

/-- Whether an event is a successfully parsed EXEC card. -/
def isExecEvent : AsmEvent → Bool
  | .parsedEv c => c.ctype == CardType.EXEC
  | _ => false

/-- The C2 counterexample stream: two nested PROC_START frames and then an
EXEC with label `S`. -/
def c2Events : List AsmEvent :=
  [AsmEvent.procStartEv ("L1") ("P1"), AsmEvent.procStartEv ("L2") ("P2"),
   AsmEvent.parsedEv ⟨CardType.EXEC, some ("S"), []⟩]

/-- C2 counterexample: with frames `(L1,P1)` then `(L2,P2)` pushed, the EXEC
step takes its names from the innermost frame `(L2,P2)` — not from the
outermost (first-pushed) frame `(L1,P1)` as the claim states. -/
theorem process_results_nested_counterexample :
    (process_results c2Events).map
        (fun s => (s.final_step_name, s.final_proc_name, s.final_proc_step_name)) =
      [(some ("L2"), some (PVal.pstr ("P2")), some ("S"))] ∧
    (some ("L2") : Option String) ≠ some ("L1") := by
  decide

/-- C2 amended: an EXEC assembled while the stack is non-empty yields a step
whose final step name and proc name come from the TOP (most recently
pushed, `proc_stack[-1]`) frame, and whose proc-step name is the EXEC's own
label; this holds in particular with more than one frame on the stack. -/
theorem asmStep_exec_top_frame (st : AsmState) (c : Card) (fr : Frame)
    (hex : c.ctype = CardType.EXEC)
    (htop : st.stack.getLast? = some fr) :
    (asmStep st (AsmEvent.parsedEv c)).steps.getLast? =
      some { card := c, final_step_name := some fr.label,
             final_proc_name := some (PVal.pstr fr.proc),
             final_proc_step_name := c.label, dds := [] } := by
  simp [asmStep, hex, applyContext, htop]

/-- Witness for the amended C2 with a two-frame stack. -/
theorem asmStep_exec_top_frame_witness :
    (asmStep ⟨[⟨("L1"), ("P1")⟩, ⟨("L2"), ("P2")⟩], [], false⟩
        (AsmEvent.parsedEv ⟨CardType.EXEC, some ("S"), []⟩)).steps.getLast? =
      some { card := ⟨CardType.EXEC, some ("S"), []⟩, final_step_name := some ("L2"),
             final_proc_name := some (PVal.pstr ("P2")),
             final_proc_step_name := some ("S"), dds := [] } :=
  asmStep_exec_top_frame ⟨[⟨("L1"), ("P1")⟩, ⟨("L2"), ("P2")⟩], [], false⟩
    ⟨CardType.EXEC, some ("S"), []⟩ ⟨("L2"), ("P2")⟩ rfl rfl

theorem asmStep_preserves_no_current (st : AsmState) (ev : AsmEvent)
    (hev : isExecEvent ev = false) (hst : st.hasCurrent = false) :
    (asmStep st ev).hasCurrent = false := by
  cases ev with
  | procStartEv l p => exact hst
  | procEndEv => exact hst
  | payloadEv content =>
    simp only [asmStep]
    cases st.steps.getLast? with
    | none => exact hst
    | some lastStep =>
      by_cases hd : lastStep.dds.isEmpty
      · simp [hd, hst]
      · simp [hd, hst]
  | parseErrorEv raw => exact hst
  | parsedEv c =>
    cases hc : c.ctype with
    | EXEC => simp [isExecEvent, hc] at hev
    | DD =>
      simp only [asmStep, hc]
      by_cases hcur : st.hasCurrent
      · rw [hst] at hcur
        cases hcur
      · simp [hst, hcur]

theorem foldl_preserves_no_current (pre : List AsmEvent) (st : AsmState)
    (hpre : ∀ e ∈ pre, isExecEvent e = false) (hst : st.hasCurrent = false) :
    (pre.foldl asmStep st).hasCurrent = false := by
  induction pre generalizing st with
  | nil => exact hst
  | cons e rest ih =>
    simp only [List.foldl_cons]
    exact ih _ (fun x hx => hpre x (List.mem_cons_of_mem e hx))
      (asmStep_preserves_no_current st e (hpre e (List.mem_cons_self e rest)) hst)

/-- C10: a DD card that parses successfully before any EXEC has been seen is
silently discarded: the stream with the DD removed assembles to exactly the
same step list (hence the DD is attached to no step and yields no persisted
row), and all later events are processed identically.  Processing is a
total function, so no error is raised. -/
theorem dd_before_exec_discarded (pre post : List AsmEvent) (c : Card)
    (hdd : c.ctype = CardType.DD)
    (hpre : ∀ e ∈ pre, isExecEvent e = false) :
    process_results (pre ++ AsmEvent.parsedEv c :: post) = process_results (pre ++ post) := by
  unfold process_results
  rw [List.foldl_append, List.foldl_append, List.foldl_cons]
  have hcur : (pre.foldl asmStep ⟨[], [], false⟩).hasCurrent = false :=
    foldl_preserves_no_current pre _ hpre rfl
  have hskip : asmStep (pre.foldl asmStep ⟨[], [], false⟩) (AsmEvent.parsedEv c) =
      pre.foldl asmStep ⟨[], [], false⟩ := by
    simp [asmStep, hdd, hcur]
  rw [hskip]

/-- Witness for C10: a payload sentinel, then an orphan DD, then an EXEC;
assembling with and without the orphan DD gives the same single step. -/
theorem dd_before_exec_discarded_witness :
    process_results
        [AsmEvent.payloadEv ("X"), AsmEvent.parsedEv ⟨CardType.DD, some ("SYSIN"), []⟩,
         AsmEvent.parsedEv ⟨CardType.EXEC, some ("S1"), []⟩] =
      process_results [AsmEvent.payloadEv ("X"), AsmEvent.parsedEv ⟨CardType.EXEC, some ("S1"), []⟩] :=
  dd_before_exec_discarded [AsmEvent.payloadEv ("X")]
    [AsmEvent.parsedEv ⟨CardType.EXEC, some ("S1"), []⟩]
    ⟨CardType.DD, some ("SYSIN"), []⟩ rfl (by decide)

/-- One DATA_ALLOCATIONS row as inserted by
`DatabaseManager.insert_project_data` (the columns the claims discuss). -/
structure AllocRow where
  ds_id : Nat
  dd_name : Option String
  allocation_offset : Nat
  dsn : PVal
  is_dummy : Bool
  instream_ref : String
deriving DecidableEq

/-- The dsn column computation of `insert_project_data` (larkJCL_DB.py
lines 506-510): `DUMMY`, then `INSTREAM`, then `SYSOUT` membership override
any DSN parameter; `(work_ds)` only when what remains is falsy. -/
def computeDsn (p : List (String × PVal)) : PVal :=
  if optTruthy (plookup p ("DUMMY")) then PVal.pstr ("(dummy)")
  else if optTruthy (plookup p ("INSTREAM")) then PVal.pstr ("(input stream)")
  else if (plookup p ("SYSOUT")).isSome then PVal.pstr ("(output stream)")
  else
    match plookup p ("DSN") with
    | some v => if pvalTruthy v then v else PVal.pstr ("(work_ds)")
    | none => PVal.pstr ("(work_ds)")

/-- The DD loop of `insert_project_data` (larkJCL_DB.py lines 496-536),
carrying the running `last_dd_name`, `allocation_offset` and `ds_id`
exactly as the Python locals do. -/
def ddRowsAux : Option String → Nat → Nat → List DDEntry → List AllocRow
  | _, _, _, [] => []
  | last, off, dsid, dd :: rest =>
    match dd.card.label with
    | some l =>
      { ds_id := dsid + 1, dd_name := some l, allocation_offset := 1,
        dsn := computeDsn dd.card.params,
        is_dummy := optTruthy (plookup dd.card.params ("DUMMY")),
        instream_ref := String.intercalate ("\n") dd.payload } ::
        ddRowsAux (some l) 1 (dsid + 1) rest
    | none =>
      { ds_id := dsid + 1, dd_name := last, allocation_offset := off + 1,
        dsn := computeDsn dd.card.params,
        is_dummy := optTruthy (plookup dd.card.params ("DUMMY")),
        instream_ref := String.intercalate ("\n") dd.payload } ::
        ddRowsAux last (off + 1) (dsid + 1) rest

/-- The DATA_ALLOCATIONS rows of one step: the loop starts with no
`last_dd_name`, `allocation_offset = 0` and `ds_id = 0`. -/
def ddRows (dds : List DDEntry) : List AllocRow :=
  ddRowsAux none 0 0 dds

theorem ddRowsAux_length (dds : List DDEntry) :
    ∀ last off dsid, (ddRowsAux last off dsid dds).length = dds.length := by
  induction dds with
  | nil => intro last off dsid; rfl
  | cons dd rest ih =>
    intro last off dsid
    cases hl : dd.card.label with
    | some l => simp [ddRowsAux, hl, ih]
    | none => simp [ddRowsAux, hl, ih]

theorem ddRowsAux_labeled (dds : List DDEntry) :
    ∀ last off dsid i dd l, dds.get? i = some dd → dd.card.label = some l →
      ((ddRowsAux last off dsid dds).get? i).map
          (fun r => (r.dd_name, r.allocation_offset)) = some (some l, 1) := by
  induction dds with
  | nil => intro last off dsid i dd l hget; simp at hget
  | cons d rest ih =>
    intro last off dsid i dd l hget hlab
    cases i with
    | zero =>
      rw [List.get?_cons_zero, Option.some.injEq] at hget
      subst hget
      cases hl : d.card.label with
      | some l0 =>
        rw [hl, Option.some.injEq] at hlab
        subst hlab
        simp [ddRowsAux, hl]
      | none => rw [hl] at hlab; cases hlab
    | succ j =>
      rw [List.get?_cons_succ] at hget
      cases hl : d.card.label with
      | some l0 =>
        simp only [ddRowsAux, hl, List.get?_cons_succ]
        exact ih _ _ _ j dd l hget hlab
      | none =>
        simp only [ddRowsAux, hl, List.get?_cons_succ]
        exact ih _ _ _ j dd l hget hlab

theorem ddRowsAux_unlabeled (dds : List DDEntry) :
    ∀ last off dsid i dd, dds.get? (i + 1) = some dd → dd.card.label = none →
      ∃ r r2, (ddRowsAux last off dsid dds).get? i = some r ∧
        (ddRowsAux last off dsid dds).get? (i + 1) = some r2 ∧
        r2.dd_name = r.dd_name ∧ r2.allocation_offset = r.allocation_offset + 1 := by
  induction dds with
  | nil => intro last off dsid i dd hget; simp at hget
  | cons d rest ih =>
    intro last off dsid i dd hget hlab
    cases i with
    | zero =>
      rw [List.get?_cons_succ] at hget
      cases rest with
      | nil => simp at hget
      | cons d2 rest2 =>
        rw [List.get?_cons_zero, Option.some.injEq] at hget
        subst hget
        cases hl : d.card.label with
        | some l0 =>
          refine ⟨AllocRow.mk (dsid + 1) (some l0) 1 (computeDsn d.card.params)
              (optTruthy (plookup d.card.params ("DUMMY")))
              (String.intercalate ("\n") d.payload),
            AllocRow.mk (dsid + 1 + 1) (some l0) (1 + 1) (computeDsn d2.card.params)
              (optTruthy (plookup d2.card.params ("DUMMY")))
              (String.intercalate ("\n") d2.payload), ?_, ?_, rfl, rfl⟩
          · simp [ddRowsAux, hl]
          · simp [ddRowsAux, hl, hlab]
        | none =>
          refine ⟨AllocRow.mk (dsid + 1) last (off + 1) (computeDsn d.card.params)
              (optTruthy (plookup d.card.params ("DUMMY")))
              (String.intercalate ("\n") d.payload),
            AllocRow.mk (dsid + 1 + 1) last (off + 1 + 1) (computeDsn d2.card.params)
              (optTruthy (plookup d2.card.params ("DUMMY")))
              (String.intercalate ("\n") d2.payload), ?_, ?_, rfl, rfl⟩
          · simp [ddRowsAux, hl]
          · simp [ddRowsAux, hl, hlab]
    | succ j =>
      rw [List.get?_cons_succ] at hget
      cases hl : d.card.label with
      | some l0 =>
        simp only [ddRowsAux, hl, List.get?_cons_succ]
        exact ih _ _ _ j dd hget hlab
      | none =>
        simp only [ddRowsAux, hl, List.get?_cons_succ]
        exact ih _ _ _ j dd hget hlab

/-- The C6 example DD list: a labeled `//INPUT DD` followed by two
unlabeled concatenation DDs. -/
def c6Dds : List DDEntry :=
  [⟨⟨CardType.DD, some ("INPUT"), []⟩, []⟩, ⟨⟨CardType.DD, none, []⟩, []⟩,
   ⟨⟨CardType.DD, none, []⟩, []⟩]

/-- C6: in the persisted DD rows of a step, a labeled DD produces a row
with its own label and `allocation_offset = 1`; every immediately
following unlabeled DD produces a row with the same `dd_name` as the
previous row and an offset one greater; rows are in bijection with the
DDs; a labeled DD followed by two unlabeled DDs yields offsets 1, 2, 3
sharing the label. -/
theorem ddRows_concatenation :
    (∀ dds : List DDEntry, (ddRows dds).length = dds.length) ∧
    (∀ (dds : List DDEntry) (i : Nat) (dd : DDEntry) (l : String),
      dds.get? i = some dd → dd.card.label = some l →
      ((ddRows dds).get? i).map (fun r => (r.dd_name, r.allocation_offset)) =
        some (some l, 1)) ∧
    (∀ (dds : List DDEntry) (i : Nat) (dd : DDEntry),
      dds.get? (i + 1) = some dd → dd.card.label = none →
      ∃ r r2, (ddRows dds).get? i = some r ∧ (ddRows dds).get? (i + 1) = some r2 ∧
        r2.dd_name = r.dd_name ∧ r2.allocation_offset = r.allocation_offset + 1) ∧
    (ddRows c6Dds).map (fun r => (r.dd_name, r.allocation_offset)) =
      [(some ("INPUT"), 1), (some ("INPUT"), 2), (some ("INPUT"), 3)] := by
  refine ⟨fun dds => ddRowsAux_length dds none 0 0,
    fun dds i dd l => ddRowsAux_labeled dds none 0 0 i dd l,
    fun dds i dd => ddRowsAux_unlabeled dds none 0 0 i dd, by decide⟩

/-- Witness for C6: the first row of the example concatenation carries the
label `INPUT` and offset 1. -/
theorem ddRows_concatenation_witness :
    ((ddRows c6Dds).get? 0).map (fun r => (r.dd_name, r.allocation_offset)) =
      some (some ("INPUT"), 1) :=
  ddRows_concatenation.2.1 c6Dds 0 ⟨⟨CardType.DD, some ("INPUT"), []⟩, []⟩ ("INPUT") rfl rfl

/-- The C7 counterexample parameters: a DD that is both `DUMMY` and has an
explicit `DSN=A.B` (the grammar accepts `//X DD DUMMY,DSN=A.B`). -/
def c7Params : List (String × PVal) :=
  [(("DUMMY"), PVal.pbool true), (("DSN"), PVal.pstr ("A.B"))]

/-- C7 counterexample: the DSN parameter is present (`A.B`) yet the
persisted dsn column is the surrogate `(dummy)` — the DUMMY surrogate
overrides a present DSN, contrary to the claim that surrogates appear only
when no DSN is present. -/
theorem computeDsn_counterexample :
    plookup c7Params ("DSN") = some (PVal.pstr ("A.B")) ∧
    computeDsn c7Params = PVal.pstr ("(dummy)") ∧
    PVal.pstr ("(dummy)") ≠ PVal.pstr ("A.B") := by
  decide

/-- C7 amended: the dsn column equals the DD's DSN parameter only when the
DD is not DUMMY, not in-stream and has no SYSOUT key (and the DSN value is
truthy); the surrogates `(dummy)`, `(input stream)`, `(output stream)`
take precedence in that order even over a present DSN; `(work_ds)` is used
when none of those apply and the DSN is absent or empty. -/
theorem computeDsn_spec (p : List (String × PVal)) :
    (optTruthy (plookup p ("DUMMY")) = true → computeDsn p = PVal.pstr ("(dummy)")) ∧
    (optTruthy (plookup p ("DUMMY")) = false → optTruthy (plookup p ("INSTREAM")) = true →
      computeDsn p = PVal.pstr ("(input stream)")) ∧
    (optTruthy (plookup p ("DUMMY")) = false → optTruthy (plookup p ("INSTREAM")) = false →
      (plookup p ("SYSOUT")).isSome = true → computeDsn p = PVal.pstr ("(output stream)")) ∧
    (optTruthy (plookup p ("DUMMY")) = false → optTruthy (plookup p ("INSTREAM")) = false →
      (plookup p ("SYSOUT")).isSome = false → ∀ v, plookup p ("DSN") = some v →
      pvalTruthy v = true → computeDsn p = v) ∧
    (optTruthy (plookup p ("DUMMY")) = false → optTruthy (plookup p ("INSTREAM")) = false →
      (plookup p ("SYSOUT")).isSome = false → optTruthy (plookup p ("DSN")) = false →
      computeDsn p = PVal.pstr ("(work_ds)")) := by
  refine ⟨?_, ?_, ?_, ?_, ?_⟩
  · intro h
    simp [computeDsn, h]
  · intro h1 h2
    simp [computeDsn, h1, h2]
  · intro h1 h2 h3
    simp [computeDsn, h1, h2, h3]
  · intro h1 h2 h3 v hv htr
    simp [computeDsn, h1, h2, h3, hv, htr]
  · intro h1 h2 h3 h4
    simp only [computeDsn, h1, h2, h3, Bool.false_eq_true, if_false, ite_false]
    cases hd : plookup p ("DSN") with
    | none => rfl
    | some v =>
      rw [hd] at h4
      simp only [optTruthy] at h4
      simp [h4]

/-- Witness for the amended C7: with only `DSN=A.B` present the column is
the DSN itself. -/
theorem computeDsn_spec_witness :
    computeDsn [(("DSN"), PVal.pstr ("A.B"))] = PVal.pstr ("A.B") :=
  (computeDsn_spec [(("DSN"), PVal.pstr ("A.B"))]).2.2.2.1 rfl rfl rfl
    (PVal.pstr ("A.B")) rfl (by decide)

/-- A captured procedure: header card plus raw body cards
(`{"header": …, "body": …}`). -/
structure ProcData where
  header : Str
  body : List Str
deriving DecidableEq

/-- The preprocessor state mutated by `expand_procedure`: the symbol table
(deep-copied on entry, so value semantics is exact), the procedure map and
the library path list. -/
structure PreState where
  symbol_table : List (Str × Str)
  procedure_map : List (Str × ProcData)
  lib_paths : List Str
deriving DecidableEq

/-- Configuration and filesystem snapshot used by `resolve_path` and the
procedure-file fallback: `SYSTEM`, `EXT`, the set of existing paths
(`os.path.exists`) and the readable files with their lines. -/
structure PreConfig where
  system_type : Str
  ext : Str
  existing : List Str
  files : List (Str × List Str)
deriving DecidableEq

/-- Reading a file's lines, `none` when the open/read raises. -/
def fsLookup (cfg : PreConfig) (path : Str) : Option (List Str) :=
  (cfg.files.find? (fun kv => kv.1 = path)).map (fun kv => kv.2)

/-- Python `os.path.join` for the shapes the source produces. -/
def pathJoin (a b : Str) : Str :=
  if a = [] then b
  else if b.head? = some '/' then b
  else if a.getLast? = some '/' then a ++ b
  else a ++ '/' :: b

/-- `JCLPreprocessor.resolve_path` (larkJCL_DB.py lines 31-44): skip empty
bases; under SYSTEM=Z return the first `base(member)` candidate without an
existence test; otherwise return the first `base/member[.ext]` that
exists. -/
def resolve_path (cfg : PreConfig) (lib_paths : List Str) (member : Str) : Option Str :=
  match lib_paths with
  | [] => none
  | base :: rest =>
    if base = [] then resolve_path cfg rest member
    else if cfg.system_type = ("Z").toList then
      some (base ++ '(' :: (member ++ [')']))
    else
      let filename := if cfg.ext ≠ [] then member ++ '.' :: cfg.ext else member
      let path := pathJoin base filename
      if (cfg.existing.find? (fun q => q = path)).isSome then some path
      else resolve_path cfg rest member

/-- The comma split of `JCLPreprocessor.parse_params` (lines 76-83): split
on commas outside single quotes; quotes toggle and are kept. -/
def splitCommasQ (inq : Bool) : Str → List Str
  | [] => [[]]
  | c :: cs =>
    let inq2 := if c = quoteChar then !inq else inq
    if c = ',' ∧ inq2 = false then [] :: splitCommasQ inq2 cs
    else
      match splitCommasQ inq2 cs with
      | [] => [[c]]
      | p :: ps => (c :: p) :: ps

/-- `JCLPreprocessor.parse_params` (larkJCL_DB.py lines 73-88): build a
dict from the `k=v` parts, upper-casing the stripped key and stripping
whitespace then single quotes from the value. -/
def parse_params (s : Str) : List (Str × Str) :=
  if s = [] then []
  else
    (splitCommasQ false s).foldl
      (fun acc p =>
        if p.any (fun c => c = '=') then
          dictSet acc (pyUpper (pyStrip (p.takeWhile (fun c => c ≠ '='))))
            (pyStripChar quoteChar (pyStrip ((p.dropWhile (fun c => c ≠ '=')).drop 1)))
        else acc) []

/-- Python `s.split(pat, 1)[1]`: the suffix after the first occurrence of
`pat`, `none` when `pat` does not occur (where the Python indexing would
raise `IndexError`). -/
def splitAfterFirst (pat : Str) : Str → Option Str
  | [] => if pat = [] then some [] else none
  | c :: cs =>
    if pat.isPrefixOf (c :: cs) then some ((c :: cs).drop pat.length)
    else splitAfterFirst pat cs

/-- The procedure lookup of `expand_procedure` (larkJCL_DB.py lines
91-100): the in-stream procedure map under the upper-cased name, else a
resolvable file whose first line becomes the header and the rest the
body; `none` when neither is available (including an unreadable or empty
file, the `except: pass` path). -/
def procForExpansion (cfg : PreConfig) (st : PreState) (proc_name : Str) : Option ProcData :=
  match (st.procedure_map.find? (fun kv => kv.1 = pyUpper proc_name)).map (fun kv => kv.2) with
  | some pd => some pd
  | none =>
    match resolve_path cfg st.lib_paths proc_name with
    | some path =>
      match fsLookup cfg path with
      | some (l0 :: rest) => some ⟨l0, rest⟩
      | _ => none
    | none => none

/-- The scoped symbol table installed for a procedure body (larkJCL_DB.py
lines 102-112): a deep copy of the caller's table, updated with the PROC
header defaults (everything after the first `PROC` of the upper-cased
header) and then with the EXEC keyword overrides (everything after the
first separator following `EXEC`'s operands). -/
def localBindings (st : PreState) (pd : ProcData) (rawOperands : Str) : List (Str × Str) :=
  let local1 :=
    if occursIn ((" PROC ").toList) (pyUpper pd.header) then
      match splitAfterFirst (("PROC").toList) (pyUpper pd.header) with
      | some proc_part => dictUpdate st.symbol_table (parse_params proc_part)
      | none => st.symbol_table
    else st.symbol_table
  let exec_operands := pyStrip rawOperands
  match exec_operands.findIdx? (fun c => c = ',' || isPySpace c) with
  | some i => dictUpdate local1 (parse_params (pyStrip (exec_operands.drop (i + 1))))
  | none => local1

/-- `JCLPreprocessor.expand_procedure` (larkJCL_DB.py lines 90-120),
parameterised by the recursive body processor `pll`
(`self.process_line_list`); `none` models an uncaught exception (the
Python `split("EXEC", 1)[1]` raises when `EXEC` is absent).  Absent a
procedure the EXEC statement passes through unchanged.  Otherwise the
scoped bindings are installed, the body is processed, and the caller's
symbol table is restored before the sentinel-wrapped expansion is
returned. -/
def expand_procedure (pll : PreState → List Str → Option (List Str × PreState))
    (cfg : PreConfig) (st : PreState) (proc_name exec_stmt outer_label : Str) :
    Option (List Str × PreState) :=
  match procForExpansion cfg st proc_name with
  | none => some ([exec_stmt], st)
  | some pd =>
    match splitAfterFirst (("EXEC").toList) exec_stmt with
    | none => none
    | some rawOperands =>
      match pll { st with symbol_table := localBindings st pd rawOperands } pd.body with
      | none => none
      | some (expanded, st2) =>
        some ((("*PROC_START* label=").toList ++ outer_label ++ (" proc=").toList ++ proc_name) ::
            (expanded ++ [("*PROC_END*").toList]),
          { st2 with symbol_table := st.symbol_table })

/-- C3: whenever `expand_procedure` completes, the preprocessor's symbol
table equals its value before the call, for every body processor `pll`:
symbols set (via SET) or bound (via PROC defaults and EXEC overrides)
during expansion live only in the deep copy and are not visible in the
caller's table afterwards. -/
theorem expand_procedure_restores_symbols
    (pll : PreState → List Str → Option (List Str × PreState))
    (cfg : PreConfig) (st : PreState) (proc_name exec_stmt outer_label : Str)
    (out : List Str) (st2 : PreState)
    (h : expand_procedure pll cfg st proc_name exec_stmt outer_label = some (out, st2)) :
    st2.symbol_table = st.symbol_table := by
  unfold expand_procedure at h
  split at h
  · simp only [Option.some.injEq, Prod.mk.injEq] at h
    rcases h with ⟨-, rfl⟩
    rfl
  · split at h
    · simp at h
    · split at h
      · simp at h
      · simp only [Option.some.injEq, Prod.mk.injEq] at h
        rcases h with ⟨-, rfl⟩
        rfl

/-- A concrete body processor for the C3 witness: it expands the body
unchanged but sets the symbol `X=9` in the active table, standing for a
SET executed inside the procedure body. -/
def c3Pll : PreState → List Str → Option (List Str × PreState) :=
  fun st lines =>
    some (lines, { st with symbol_table := dictSet st.symbol_table (("X").toList) (("9").toList) })

/-- Configuration for the C3 witness (filesystem mode, no libraries). -/
def c3Cfg : PreConfig := ⟨("LWM").toList, [], [], []⟩

/-- Preprocessor state for the C3 witness: symbol `A=1` and a captured
procedure `MYPROC` with a default `P=FOO`. -/
def c3State : PreState :=
  ⟨[(("A").toList, ("1").toList)],
   [(("MYPROC").toList,
     ⟨("//MYPROC PROC P=FOO").toList, [("//S1 EXEC PGM=&P").toList]⟩)],
   []⟩

/-- Witness for C3: expanding `MYPROC` from `//CALL EXEC MYPROC,P=BAR`
with a body processor that sets a symbol returns a state whose symbol
table is the caller's table unchanged. -/
theorem expand_procedure_restores_symbols_witness :
    ((expand_procedure c3Pll c3Cfg c3State (("MYPROC").toList)
          (("//CALL EXEC MYPROC,P=BAR").toList) (("CALL").toList)).map
        (fun r => r.2.symbol_table)) = some c3State.symbol_table := by
  cases hres : expand_procedure c3Pll c3Cfg c3State (("MYPROC").toList)
      (("//CALL EXEC MYPROC,P=BAR").toList) (("CALL").toList) with
  | none => exact absurd hres (by decide)
  | some r =>
    exact congrArg some
      (expand_procedure_restores_symbols c3Pll c3Cfg c3State (("MYPROC").toList)
        (("//CALL EXEC MYPROC,P=BAR").toList) (("CALL").toList) r.1 r.2
        (by rw [hres]))
